import Mathlib

/-!
Shallow embedding of `src/pokemon_products.py` (ShopSpider): text
normalization (`clean_text`), price parsing (`parse_price`), the
sequential crawl accumulator (`parse`), and the finalize/export step
(`closed`: dedup, empty-row filter, CSV and XLSX row construction).

Python strings are modelled as Lean `String`/`List Char`; Python `None`
as `Option`; Python floats as exact scaled decimals (`Flt` — the monetary
amounts in this pipeline are short decimal strings, where the float
round-trip is value-faithful); fallible operations return `Option`.
-/

namespace Shop

/-- The Python/`re` whitespace class (`\s`, also the default set stripped by
`str.strip`): ASCII whitespace, the C1 separators, and the Unicode space
characters. -/
def isSpacePy (c : Char) : Bool :=
  c = ' ' || c = '\t' || c = '\n' || c = '\r' || c = '\x0b' || c = '\x0c' ||
  c = '\x1c' || c = '\x1d' || c = '\x1e' || c = '\x1f' || c = '\x85' || c = '\xa0' ||
  c = '\u1680' || ('\u2000' ≤ c && c ≤ '\u200A') || c = '\u2028' || c = '\u2029' ||
  c = '\u202F' || c = '\u205F' || c = '\u3000'

/-- `re.sub(r"\s+", " ", ·)`: replace every maximal whitespace run by a single
space.  The boolean state records whether we are inside a whitespace run. -/
def collapseWsAux : Bool → List Char → List Char
  | _, [] => []
  | inRun, c :: cs =>
    if isSpacePy c then
      if inRun then collapseWsAux true cs
      else ' ' :: collapseWsAux true cs
    else c :: collapseWsAux false cs

/-- Python `str.strip()` on a character list: drop whitespace from both ends. -/
def pyStrip (l : List Char) : List Char :=
  ((l.dropWhile isSpacePy).reverse.dropWhile isSpacePy).reverse

/-- Python `str.strip()` on a string. -/
def pyStripS (s : String) : String :=
  String.mk (pyStrip s.data)

/-- Python `x or y` on strings: `y` when `x` is empty (falsy), else `x`. -/
def pyOr (a b : String) : String :=
  if a = "" then b else a

/-- Modelled from the spec: `ftfy.fix_text` (a third-party dependency, not part
of this repository's sources) "repairs common text-encoding corruption
(mojibake) so that characters display correctly".  The repair rewrites
misdecoded characters in place and is the identity on well-encoded text such
as the catalog's ASCII names, prices and URLs; it is modelled as the
identity map. -/
def fix_text (s : String) : String := s

/-- `ShopSpider.clean_text` (src lines 34-38): `""` on falsy input, else
`fix_text(re.sub(r"\s+", " ", text).strip())`.  `none` models Python `None`. -/
def clean_text : Option String → String
  | none => ""
  | some t => if t = "" then "" else fix_text (String.mk (pyStrip (collapseWsAux false t.data)))

/-- `self.currency_symbol` (src line 29). -/
def currency_symbol : String := "$"

/-- Character class of the regex `[\d\.,]+` (src line 51). -/
def isNumChar (c : Char) : Bool :=
  c.isDigit || c = '.' || c = ','

/-- `re.search` for a character-class-plus pattern: the leftmost maximal run
of characters satisfying `p`, or `none` when no character matches. -/
def findRun (p : Char → Bool) : List Char → Option (List Char)
  | [] => none
  | c :: cs => if p c then some (c :: cs.takeWhile p) else findRun p cs

/-- Value of a list of decimal digit characters, most significant first. -/
def digitsVal (l : List Char) : ℕ :=
  l.foldl (fun a c => 10 * a + (c.toNat - 48)) 0

/-- A nonnegative Python float written as an exact scaled decimal: `Flt.mant`
is the digit string's value with the dot removed and `Flt.frac` the number of
fractional digits, denoting `mant / 10 ^ frac`.  The amounts this pipeline
parses are short decimal strings, for which the binary-float round trip of
CPython is value-faithful. -/
structure Flt where
  mant : ℕ
  frac : ℕ
deriving DecidableEq, Repr

/-- The rational value denoted by a `Flt`. -/
def Flt.val (x : Flt) : ℚ :=
  (x.mant : ℚ) / (10 : ℚ) ^ x.frac

/-- Python `float(·)` restricted to strings over the alphabet `[0-9.]` (the
only strings reachable at src line 57, where the matched `[\d\.,]+` token has
had its commas removed): succeeds iff the string has at least one digit and
at most one dot, yielding the exact decimal value. -/
def pyFloat (l : List Char) : Option Flt :=
  if l.any Char.isDigit && l.all (fun c => c.isDigit || c = '.') && l.count '.' ≤ 1 then
    let ip := l.takeWhile (fun c => c ≠ '.')
    let fp := (l.dropWhile (fun c => c ≠ '.')).drop 1
    some ⟨digitsVal ip * 10 ^ fp.length + digitsVal fp, fp.length⟩
  else none

/-- The number of cents of `mant / 10 ^ frac`, rounding ties to even (the
rounding Python's fixed-point `format` applies to these amounts). -/
def centsHalfEven (m k : ℕ) : ℕ :=
  if k ≤ 2 then m * 10 ^ (2 - k)
  else
    let d := 10 ^ (k - 2)
    if 2 * (m % d) < d then m / d
    else if d < 2 * (m % d) then m / d + 1
    else if (m / d) % 2 = 0 then m / d else m / d + 1

/-- Insert a comma after every third character of a reversed digit list. -/
def group3 : List Char → List Char
  | a :: b :: c :: d :: rest => a :: b :: c :: ',' :: group3 (d :: rest)
  | l => l

/-- Decimal digits of `n` with thousands separators (`1234 ↦ "1,234"`). -/
def thousandsSep (n : ℕ) : String :=
  String.mk ((group3 (Nat.toDigits 10 n).reverse).reverse)

/-- Python `f"{num:,.2f}"` on a nonnegative amount: thousands separators and
exactly two decimal places. -/
def formatComma2 (x : Flt) : String :=
  let n := centsHalfEven x.mant x.frac
  thousandsSep (n / 100) ++ "." ++ (if n % 100 < 10 then "0" else "") ++ toString (n % 100)

/-- A price fragment: the scrapy `SelectorList` for
`span.woocommerce-Price-amount.amount`, as read by `parse_price`.
`currencyText` models `css("span.woocommerce-Price-currencySymbol::text").get(default="")`,
`textNodes` models `xpath("text()").getall()`, and `raw` models
`price_block.get()` (the serialized HTML of the fragment). -/
structure PriceBlock where
  currencyText : String
  textNodes : List String
  raw : String
deriving DecidableEq, Repr

/-- The candidate amount string of `parse_price` (src lines 46-49):
`" ".join(amount_text_nodes).strip() or price_block.get() or ""`, then
`fix_text`. -/
def amount_text (b : PriceBlock) : String :=
  fix_text (pyOr (pyOr (pyStripS (String.intercalate " " b.textNodes)) b.raw) "")

/-- The currency glyph computed at src lines 45 and 48.  The source computes
it but never uses it afterwards: the display string is always built from
`self.currency_symbol`. -/
def extracted_currency (b : PriceBlock) : String :=
  fix_text (pyOr (pyStripS b.currencyText) currency_symbol)

/-- `num_str = m.group(0).replace(",", "")` (src line 55): drop every comma. -/
def stripCommas (l : List Char) : List Char :=
  l.filter (fun c => c ≠ ',')

/-- `ShopSpider.parse_price` (src lines 40-62).  `none` models an empty
(falsy) `SelectorList`.  The regex search `re.search(r"[\d\.,]+", ·)` is the
leftmost maximal run of digit/dot/comma characters; `replace(",", "")` is
`stripCommas`; `float` is `pyFloat`; the display is
`f"{self.currency_symbol}{num:,.2f}"`. -/
def parse_price (pb : Option PriceBlock) : String × Option Flt :=
  match pb with
  | none => ("N/A", none)
  | some b =>
    match findRun isNumChar (amount_text b).data with
    | none => ("N/A", none)
    | some tok =>
      match pyFloat (stripCommas tok) with
      | none => ("N/A", none)
      | some num => (currency_symbol ++ formatComma2 num, some num)

/-- The raw record built per product at src lines 79-84. -/
structure RawItem where
  Name : String
  PriceDisplay : String
  PriceNumeric : Option Flt
  Image : String
deriving DecidableEq, Repr

/-- The cleaned record built per surviving item at src lines 117-122. -/
structure CleanedItem where
  Name : String
  Price : String
  PriceNumeric : Option Flt
  Image : String
deriving DecidableEq, Repr

/-- One product container element (`li.product.type-product`), as read at src
lines 74-77: the title text node, the price `SelectorList` (empty modelled as
`none`), and the thumbnail `src` attribute.  `none` models a missing node
(css `.get` then returns its default). -/
structure Product where
  nameText : Option String
  priceBlock : Option PriceBlock
  imageSrc : Option String
deriving DecidableEq, Repr

/-- Spider state: `self.seq` and the ordered accumulator `self.items`
(an `OrderedDict` keyed by fresh sequence numbers, hence an append-only
association list). -/
structure SpiderState where
  seq : ℕ
  items : List (ℕ × RawItem)
deriving DecidableEq, Repr

/-- One iteration of the product loop in `ShopSpider.parse` (src lines
70-86): increment `self.seq`, extract the fields, build the record, and
insert it at the fresh key. -/
def processProduct (st : SpiderState) (p : Product) : SpiderState :=
  let seq := st.seq + 1
  let name := clean_text (some (p.nameText.getD ""))
  let pr := parse_price p.priceBlock
  let image := clean_text (some (p.imageSrc.getD ""))
  let record : RawItem :=
    { Name := pyOr name ""
      PriceDisplay := if pr.1 = "" then "" else pr.1
      PriceNumeric := pr.2
      Image := pyOr image "" }
  { seq := seq, items := st.items ++ [(seq, record)] }

/-- `ShopSpider.parse` on one page: the product loop over the page's
containers in document order. -/
def parsePage (st : SpiderState) (products : List Product) : SpiderState :=
  products.foldl processProduct st

/-- The sequential crawl (src lines 88-97, `CONCURRENT_REQUESTS = 1`): pages
are fetched and parsed strictly one after the other, so the final state is a
left fold of `parsePage` over the page sequence. -/
def crawl (pages : List (List Product)) : SpiderState :=
  pages.foldl parsePage ⟨0, []⟩

/-- The raw records accumulated by a crawl, in insertion order. -/
def rawRecords (pages : List (List Product)) : List RawItem :=
  ((crawl pages).items).map Prod.snd

/-- The per-item cleaning of the finalize loop (src lines 107-110):
sentinel substitution after normalization. -/
def cleanItem (it : RawItem) : CleanedItem :=
  { Name := pyOr (clean_text (some it.Name)) "N/A"
    Price := pyOr it.PriceDisplay "N/A"
    PriceNumeric := it.PriceNumeric
    Image := pyOr (clean_text (some it.Image)) "N/A" }

/-- The dedup key of a cleaned item (src line 112). -/
def dedupKey (r : CleanedItem) : String × String × String :=
  (r.Name, r.Price, r.Image)

/-- The dedup loop of `closed` (src lines 112-122): skip an item whose key is
in `seen`, else keep it and record its key.  `seen` is a set; a list with
membership models it. -/
def dedupAux : List CleanedItem → List (String × String × String) → List CleanedItem
  | [], _ => []
  | it :: rest, seen =>
    if dedupKey it ∈ seen then dedupAux rest seen
    else it :: dedupAux rest (dedupKey it :: seen)

/-- The empty-row test of the filter at src lines 125-128:
`all(v == "N/A" or v == "" or v is None for v in ...)` over the three string
fields (which, being strings, are never `None`). -/
def isRowEmpty (r : CleanedItem) : Bool :=
  (r.Name = "N/A" || r.Name = "") && (r.Price = "N/A" || r.Price = "") &&
    (r.Image = "N/A" || r.Image = "")

/-- The finalize step of `closed` (src lines 100-131): clean, dedup keeping
first occurrences, then drop entirely empty rows.  (The source interleaves
cleaning with the dedup loop; cleaning is per-item, so mapping first is the
same computation.) -/
def finalizeItems (l : List RawItem) : List CleanedItem :=
  (dedupAux (l.map cleanItem) []).filter (fun r => !(isRowEmpty r))

/-- The cleaned, deduplicated, filtered items of a whole crawl. -/
def pipelineItems (pages : List (List Product)) : List CleanedItem :=
  finalizeItems (rawRecords pages)

/-- One CSV data row (src lines 142-147): the three fields with the
`or "N/A"` fallback. -/
def csvRow (r : CleanedItem) : List String :=
  [pyOr r.Name "N/A", pyOr r.Price "N/A", pyOr r.Image "N/A"]

/-- The header row used by both writers (src lines 101 and 166). -/
def headerRow : List String :=
  ["Name", "Price", "Image"]

/-- A CSV field under `csv.QUOTE_ALL`: wrapped in double quotes, embedded
double quotes doubled. -/
def csvField (s : String) : String :=
  "\"" ++ String.mk (s.data.foldr (fun c acc => if c = '"' then '"' :: '"' :: acc else c :: acc) []) ++ "\""

/-- One physical CSV line (the csv module's default line terminator). -/
def csvLine (fields : List String) : String :=
  String.intercalate "," (fields.map csvField) ++ "\r\n"

/-- The byte content of the CSV file (src lines 139-147): `utf-8-sig` prefix,
header line, one line per filtered row. -/
def csvContent (rows : List (List String)) : String :=
  "\uFEFF" ++ csvLine headerRow ++ String.join (rows.map csvLine)

/-- The CSV file produced by a crawl over the given page sequence. -/
def runCsv (pages : List (List Product)) : String :=
  csvContent ((pipelineItems pages).map csvRow)

/-- Modelled from the spec: the text a spreadsheet application renders for a
numeric cell under the number format `f'{self.currency_symbol}#,##0.00'`
(src line 184) — the currency symbol followed by the amount with thousands
separators and exactly two decimal places.  The xlsx writer itself only
stores the number and the format string; the rendering is the
spreadsheet's. -/
def renderCurrencyCell (x : Flt) : String :=
  currency_symbol ++ formatComma2 x

/-- The displayed text of the price cell written at src lines 182-187:
the rendered numeric cell when `PriceNumeric` is present, else the literal
sentinel string. -/
def xlsxPriceText (r : CleanedItem) : String :=
  match r.PriceNumeric with
  | some x => renderCurrencyCell x
  | none => "N/A"

/-- One xlsx data row as displayed (src lines 174-198): the `or "N/A"`
fallback on Name and Image, and the price cell's rendered text. -/
def xlsxRow (r : CleanedItem) : List String :=
  [pyOr r.Name "N/A", xlsxPriceText r, pyOr r.Image "N/A"]

/-! ### The spec's decimal-number pattern

For comparison with the source's regex `[\d\.,]+`: the spec describes the
pattern `[digits](,digits)*(.digits)?` — digits, optional comma thousands
separators, optional decimal point.  The following matcher is written from
the spec's words with Python `re` semantics (leftmost match; each greedy
piece consumes maximally, and the pieces start with distinct characters, so
no backtracking arises). -/

/-- Greedily consume `(,digits)*`: repeated groups of a comma followed by a
maximal nonempty digit run.  Returns the consumed characters and the rest.
The fuel argument makes the recursion structural; each group consumes at
least two characters, so any fuel of at least the list's length is enough. -/
def commaGroupsF : ℕ → List Char → List Char × List Char
  | 0, l => ([], l)
  | fuel + 1, l =>
    match l with
    | ',' :: rest =>
      if rest.takeWhile Char.isDigit = [] then ([], ',' :: rest)
      else
        let pr := commaGroupsF fuel (rest.dropWhile Char.isDigit)
        (',' :: rest.takeWhile Char.isDigit ++ pr.1, pr.2)
    | _ => ([], l)

/-- `(,digits)*` with sufficient fuel. -/
def commaGroups (l : List Char) : List Char × List Char :=
  commaGroupsF l.length l

/-- Match the spec's pattern `digits(,digits)*(.digits)?` anchored at the
head of `l`; `none` when the head is not a digit. -/
def matchDecimal (l : List Char) : Option (List Char) :=
  match l with
  | c :: _ =>
    if c.isDigit then
      let ds := l.takeWhile Char.isDigit
      let pr := commaGroups (l.dropWhile Char.isDigit)
      let frac : List Char :=
        match pr.2 with
        | '.' :: rest => if rest.takeWhile Char.isDigit = [] then []
            else '.' :: rest.takeWhile Char.isDigit
        | _ => []
      some (ds ++ pr.1 ++ frac)
    else none
  | [] => none

/-- The first (leftmost) match of the spec's decimal-number pattern. -/
def firstDecimalMatch : List Char → Option (List Char)
  | [] => none
  | c :: cs =>
    match matchDecimal (c :: cs) with
    | some m => some m
    | none => firstDecimalMatch cs

/-! ### Helper lemmas: strings and `pyOr` -/

lemma currency_symbol_data : currency_symbol.data = ['$'] := rfl

lemma currency_append_ne_empty (s : String) : currency_symbol ++ s ≠ "" := by
  intro h
  have h2 := congrArg String.data h
  rw [String.data_append, currency_symbol_data] at h2
  simp at h2

lemma currency_append_ne_na (s : String) : currency_symbol ++ s ≠ "N/A" := by
  intro h
  have h2 := congrArg String.data h
  rw [String.data_append, currency_symbol_data] at h2
  have hNA : ("N/A" : String).data = ['N', '/', 'A'] := rfl
  rw [hNA] at h2
  simp only [List.cons_append, List.nil_append] at h2
  injection h2 with h5 h6
  exact absurd h5 (by decide)

lemma pyOr_eq_self {a : String} (b : String) (ha : a ≠ "") : pyOr a b = a := by
  simp [pyOr, ha]

lemma pyOr_empty (b : String) : pyOr "" b = b := by
  simp [pyOr]

lemma pyOr_ne_empty (a : String) {b : String} (hb : b ≠ "") : pyOr a b ≠ "" := by
  unfold pyOr
  split
  · exact hb
  · assumption

lemma na_ne_empty : ("N/A" : String) ≠ "" := by decide

/-! ### Helper lemmas: whitespace normalization (for `clean_text`) -/

/-- No two adjacent characters are both whitespace. -/
def NoWsRun (l : List Char) : Prop :=
  l.Chain' (fun a b => ¬(isSpacePy a = true ∧ isSpacePy b = true))

lemma noWsRun_nil : NoWsRun [] :=
  List.chain'_nil

lemma noWsRun_suffix {l l' : List Char} (h : NoWsRun l) (hs : l' <:+ l) : NoWsRun l' :=
  List.Chain'.suffix h hs

lemma noWsRun_reverse {l : List Char} (h : NoWsRun l) : NoWsRun l.reverse := by
  unfold NoWsRun at h ⊢
  rw [List.chain'_reverse]
  exact List.Chain'.imp (fun a b hab hand => hab ⟨hand.2, hand.1⟩) h

lemma collapseWsAux_spec (l : List Char) :
    NoWsRun (collapseWsAux false l) ∧ NoWsRun (collapseWsAux true l) ∧
      ∀ c ∈ (collapseWsAux true l).head?, isSpacePy c = false := by
  induction l with
  | nil => refine ⟨List.chain'_nil, List.chain'_nil, ?_⟩; simp [collapseWsAux]
  | cons c cs ih =>
    obtain ⟨ihF, ihT, ihH⟩ := ih
    by_cases hc : isSpacePy c
    · have eF : collapseWsAux false (c :: cs) = ' ' :: collapseWsAux true cs := by
        simp [collapseWsAux, hc]
      have eT : collapseWsAux true (c :: cs) = collapseWsAux true cs := by
        simp [collapseWsAux, hc]
      refine ⟨?_, ?_, ?_⟩
      · rw [eF]
        unfold NoWsRun
        rw [List.chain'_cons']
        refine ⟨fun b hb => ?_, ihT⟩
        have hb' := ihH b hb
        intro hand
        rw [hb'] at hand
        exact absurd hand.2 (by simp)
      · rw [eT]
        exact ihT
      · intro d hd
        rw [eT] at hd
        exact ihH d hd
    · have eF : collapseWsAux false (c :: cs) = c :: collapseWsAux false cs := by
        simp [collapseWsAux, hc]
      have eT : collapseWsAux true (c :: cs) = c :: collapseWsAux false cs := by
        simp [collapseWsAux, hc]
      have hchain : NoWsRun (c :: collapseWsAux false cs) := by
        unfold NoWsRun
        rw [List.chain'_cons']
        refine ⟨fun b _ => ?_, ihF⟩
        intro hand
        exact hc hand.1
      refine ⟨?_, ?_, ?_⟩
      · rw [eF]; exact hchain
      · rw [eT]; exact hchain
      · intro d hd
        rw [eT] at hd
        simp at hd
        rw [← hd]
        simpa using hc

lemma head?_dropWhile_false {p : Char → Bool} :
    ∀ (l : List Char) (c : Char), (l.dropWhile p).head? = some c → p c = false := by
  intro l
  induction l with
  | nil => intro c h; simp [List.dropWhile] at h
  | cons a t ih =>
    intro c h
    by_cases hp : p a
    · rw [List.dropWhile_cons_of_pos hp] at h
      exact ih c h
    · rw [List.dropWhile_cons_of_neg hp] at h
      simp at h
      rw [← h]
      simpa using hp

lemma getLast?_dropWhile {p : Char → Bool} (m : List Char) (c : Char)
    (h : (m.dropWhile p).getLast? = some c) : m.getLast? = some c := by
  obtain ⟨t, ht⟩ := List.dropWhile_suffix (l := m) p
  have hne : m.dropWhile p ≠ [] := by
    intro hnil
    rw [hnil] at h
    simp at h
  rw [← ht, List.getLast?_append_of_ne_nil _ hne]
  exact h

lemma pyStrip_noWsRun {l : List Char} (h : NoWsRun l) : NoWsRun (pyStrip l) := by
  unfold pyStrip
  exact noWsRun_reverse (noWsRun_suffix (noWsRun_reverse (noWsRun_suffix h
    (List.dropWhile_suffix isSpacePy))) (List.dropWhile_suffix isSpacePy))

lemma pyStrip_head {l : List Char} (c : Char) (h : (pyStrip l).head? = some c) :
    isSpacePy c = false := by
  unfold pyStrip at h
  rw [List.head?_reverse] at h
  have h2 := getLast?_dropWhile _ _ h
  rw [List.getLast?_reverse] at h2
  exact head?_dropWhile_false _ _ h2

lemma pyStrip_getLast {l : List Char} (c : Char) (h : (pyStrip l).getLast? = some c) :
    isSpacePy c = false := by
  unfold pyStrip at h
  rw [List.getLast?_reverse] at h
  exact head?_dropWhile_false _ _ h

/-- The three normalization guarantees of `clean_text`, for every input. -/
lemma clean_text_spec (t : Option String) :
    NoWsRun (clean_text t).data ∧
      (∀ c ∈ (clean_text t).data.head?, isSpacePy c = false) ∧
      (∀ c ∈ (clean_text t).data.getLast?, isSpacePy c = false) := by
  match t with
  | none =>
    refine ⟨noWsRun_nil, ?_, ?_⟩ <;> simp [clean_text]
  | some s =>
    by_cases hs : s = ""
    · subst hs
      refine ⟨?_, ?_, ?_⟩ <;> simp [clean_text] <;> exact noWsRun_nil
    · have hct : clean_text (some s) =
          String.mk (pyStrip (collapseWsAux false s.data)) := by
        simp [clean_text, hs, fix_text]
      rw [hct]
      refine ⟨?_, ?_, ?_⟩
      · exact pyStrip_noWsRun (collapseWsAux_spec s.data).1
      · intro c hc
        exact pyStrip_head c hc
      · intro c hc
        exact pyStrip_getLast c hc

/-! ### Helper lemmas: `parse_price` and the pipeline invariant -/

/-- `parse_price` either fails with the sentinel pair or succeeds with a
number and the display built from it. -/
lemma parse_price_cases (pb : Option PriceBlock) :
    parse_price pb = ("N/A", none) ∨
      ∃ x, parse_price pb = (currency_symbol ++ formatComma2 x, some x) := by
  match pb with
  | none => exact Or.inl rfl
  | some b =>
    cases h1 : findRun isNumChar (amount_text b).data with
    | none => left; simp [parse_price, h1]
    | some tok =>
      cases h2 : pyFloat (stripCommas tok) with
      | none => left; simp [parse_price, h1, h2]
      | some x => right; exact ⟨x, by simp [parse_price, h1, h2]⟩

/-- The invariant tying a raw record's numeric price to its display string:
the numeric is present exactly when the display is the formatted currency
string, and absent exactly when the display is the sentinel.  Every record
built by the product loop satisfies it. -/
def GoodRecord (r : RawItem) : Prop :=
  (r.PriceNumeric = none ∧ r.PriceDisplay = "N/A") ∨
    ∃ x, r.PriceNumeric = some x ∧ r.PriceDisplay = currency_symbol ++ formatComma2 x

/-- The same invariant on a cleaned record. -/
def GoodClean (r : CleanedItem) : Prop :=
  (r.PriceNumeric = none ∧ r.Price = "N/A") ∨
    ∃ x, r.PriceNumeric = some x ∧ r.Price = currency_symbol ++ formatComma2 x

lemma foldl_preserve {α β : Type} (f : α → β → α) (P : α → Prop)
    (hstep : ∀ a b, P a → P (f a b)) :
    ∀ (l : List β) (a : α), P a → P (l.foldl f a) := by
  intro l
  induction l with
  | nil => intro a h; exact h
  | cons x t ih => intro a h; exact ih _ (hstep _ _ h)

lemma processProduct_good (st : SpiderState) (p : Product)
    (h : ∀ pr ∈ st.items, GoodRecord pr.2) :
    ∀ pr ∈ (processProduct st p).items, GoodRecord pr.2 := by
  intro pr hpr
  unfold processProduct at hpr
  simp only [List.mem_append, List.mem_singleton] at hpr
  rcases hpr with hold | hnew
  · exact h pr hold
  · subst hnew
    rcases parse_price_cases p.priceBlock with hfail | ⟨x, hsucc⟩
    · left
      constructor
      · simp [hfail]
      · simp [hfail, na_ne_empty]
    · right
      refine ⟨x, ?_, ?_⟩
      · simp [hsucc]
      · simp [hsucc, currency_append_ne_empty (formatComma2 x)]

lemma rawRecords_good (pages : List (List Product)) :
    ∀ r ∈ rawRecords pages, GoodRecord r := by
  have hinv : ∀ pr ∈ (crawl pages).items, GoodRecord pr.2 := by
    unfold crawl
    refine foldl_preserve parsePage (fun st => ∀ pr ∈ st.items, GoodRecord pr.2)
      ?_ pages ⟨0, []⟩ (by intro pr hpr; simp at hpr)
    intro st pg hst
    unfold parsePage
    exact foldl_preserve processProduct _ processProduct_good pg st hst
  intro r hr
  unfold rawRecords at hr
  simp only [List.mem_map] at hr
  obtain ⟨pr, hpr, heq⟩ := hr
  rw [← heq]
  exact hinv pr hpr

lemma cleanItem_good (it : RawItem) (h : GoodRecord it) : GoodClean (cleanItem it) := by
  rcases h with ⟨hn, hd⟩ | ⟨x, hn, hd⟩
  · left
    refine ⟨hn, ?_⟩
    simp [cleanItem, hd, pyOr_eq_self _ na_ne_empty]
  · right
    refine ⟨x, hn, ?_⟩
    simp [cleanItem, hd, pyOr_eq_self _ (currency_append_ne_empty _)]

/-! ### Helper lemmas: dedup and filter -/

lemma dedupAux_sublist : ∀ (l : List CleanedItem) (seen : List (String × String × String)),
    (dedupAux l seen).Sublist l := by
  intro l
  induction l with
  | nil => intro seen; simp [dedupAux]
  | cons c rest ih =>
    intro seen
    unfold dedupAux
    split
    · exact (ih seen).cons c
    · exact (ih (dedupKey c :: seen)).cons₂ c

lemma dedupAux_spec : ∀ (l : List CleanedItem) (seen : List (String × String × String)),
    ((dedupAux l seen).map dedupKey).Nodup ∧
      (∀ r ∈ dedupAux l seen, dedupKey r ∉ seen) ∧
      ∀ k ∉ seen, (dedupAux l seen).find? (fun c => dedupKey c = k) =
        l.find? (fun c => dedupKey c = k) := by
  intro l
  induction l with
  | nil => intro seen; refine ⟨by simp [dedupAux], by simp [dedupAux], by simp [dedupAux]⟩
  | cons c rest ih =>
    intro seen
    by_cases hc : dedupKey c ∈ seen
    · have e : dedupAux (c :: rest) seen = dedupAux rest seen := by
        simp [dedupAux, hc]
      obtain ⟨ih1, ih2, ih3⟩ := ih seen
      refine ⟨by rw [e]; exact ih1, by rw [e]; exact ih2, ?_⟩
      intro k hk
      rw [e, ih3 k hk]
      have hck : ¬(dedupKey c = k) := fun he => hk (he ▸ hc)
      rw [List.find?_cons_of_neg _ (by simpa using hck)]
    · have e : dedupAux (c :: rest) seen = c :: dedupAux rest (dedupKey c :: seen) := by
        simp [dedupAux, hc]
      obtain ⟨ih1, ih2, ih3⟩ := ih (dedupKey c :: seen)
      refine ⟨?_, ?_, ?_⟩
      · rw [e]
        simp only [List.map_cons, List.nodup_cons]
        refine ⟨?_, ih1⟩
        intro hmem
        simp only [List.mem_map] at hmem
        obtain ⟨r, hr, hrk⟩ := hmem
        exact (ih2 r hr) (by rw [hrk]; exact List.mem_cons_self _ _)
      · rw [e]
        intro r hr
        rcases List.mem_cons.mp hr with h | h
        · rw [h]; exact hc
        · intro habs
          exact (ih2 r h) (List.mem_cons_of_mem _ habs)
      · intro k hk
        rw [e]
        by_cases hck : dedupKey c = k
        · rw [List.find?_cons_of_pos _ (by simpa using hck),
            List.find?_cons_of_pos _ (by simpa using hck)]
        · rw [List.find?_cons_of_neg _ (by simpa using hck),
            List.find?_cons_of_neg _ (by simpa using hck)]
          refine ih3 k ?_
          intro habs
          rcases List.mem_cons.mp habs with h | h
          · exact hck h.symm
          · exact hk h

lemma finalizeItems_sublist (l : List RawItem) :
    (finalizeItems l).Sublist (l.map cleanItem) :=
  (List.filter_sublist _).trans (dedupAux_sublist _ _)

lemma mem_finalizeItems {l : List RawItem} {r : CleanedItem} (h : r ∈ finalizeItems l) :
    r ∈ l.map cleanItem ∧ isRowEmpty r = false := by
  unfold finalizeItems at h
  have h2 := List.mem_filter.mp h
  refine ⟨(dedupAux_sublist _ _).subset h2.1, by simpa using h2.2⟩

lemma pipeline_good (pages : List (List Product)) :
    ∀ r ∈ pipelineItems pages, GoodClean r := by
  intro r hr
  obtain ⟨hmem, _⟩ := mem_finalizeItems hr
  simp only [List.mem_map] at hmem
  obtain ⟨it, hit, heq⟩ := hmem
  rw [← heq]
  exact cleanItem_good it (rawRecords_good pages it hit)

/-! ### Helper lemmas: sequence numbers -/

lemma processProduct_seq (st : SpiderState) (p : Product)
    (h : st.items.map Prod.fst = List.range' 1 st.seq) :
    (processProduct st p).items.map Prod.fst = List.range' 1 (processProduct st p).seq := by
  unfold processProduct
  simp only [List.map_append, List.map_cons, List.map_nil, h]
  rw [List.range'_concat]
  simp [Nat.add_comm]

lemma crawl_seq_range (pages : List (List Product)) :
    (crawl pages).items.map Prod.fst = List.range' 1 (crawl pages).seq := by
  unfold crawl
  refine foldl_preserve parsePage (fun st => st.items.map Prod.fst = List.range' 1 st.seq)
    ?_ pages ⟨0, []⟩ (by simp)
  intro st pg hst
  unfold parsePage
  exact foldl_preserve processProduct _ processProduct_seq pg st hst

lemma crawl_items_length (pages : List (List Product)) :
    (crawl pages).items.length = (crawl pages).seq := by
  have h := congrArg List.length (crawl_seq_range pages)
  simpa [List.length_range'] using h

/-! ### Helper lemmas: empty rows -/

lemma isRowEmpty_fields {s : CleanedItem} (h : isRowEmpty s = true) :
    (s.Name = "N/A" ∨ s.Name = "") ∧ (s.Price = "N/A" ∨ s.Price = "") ∧
      (s.Image = "N/A" ∨ s.Image = "") := by
  unfold isRowEmpty at h
  simp at h
  tauto

lemma isRowEmpty_false_fields {s : CleanedItem} (h : isRowEmpty s = false) :
    ¬(s.Name = "N/A" ∨ s.Name = "") ∨ ¬(s.Price = "N/A" ∨ s.Price = "") ∨
      ¬(s.Image = "N/A" ∨ s.Image = "") := by
  unfold isRowEmpty at h
  simp at h
  tauto

lemma cleanItem_name_ne_empty (it : RawItem) : (cleanItem it).Name ≠ "" :=
  pyOr_ne_empty _ na_ne_empty

lemma cleanItem_price_ne_empty (it : RawItem) : (cleanItem it).Price ≠ "" :=
  pyOr_ne_empty _ na_ne_empty

lemma cleanItem_image_ne_empty (it : RawItem) : (cleanItem it).Image ≠ "" :=
  pyOr_ne_empty _ na_ne_empty

lemma empty_cleanItem_fields (it : RawItem) (h : isRowEmpty (cleanItem it) = true) :
    (cleanItem it).Name = "N/A" ∧ (cleanItem it).Price = "N/A" ∧
      (cleanItem it).Image = "N/A" := by
  obtain ⟨h1, h2, h3⟩ := isRowEmpty_fields h
  exact ⟨h1.resolve_right (cleanItem_name_ne_empty it),
    h2.resolve_right (cleanItem_price_ne_empty it),
    h3.resolve_right (cleanItem_image_ne_empty it)⟩

lemma empty_cleanItem_numeric (it : RawItem) (hg : GoodRecord it)
    (h : isRowEmpty (cleanItem it) = true) : (cleanItem it).PriceNumeric = none := by
  rcases hg with ⟨hn, _⟩ | ⟨x, _, hd⟩
  · simp [cleanItem, hn]
  · exfalso
    have hp := (empty_cleanItem_fields it h).2.1
    rw [show (cleanItem it).Price = pyOr it.PriceDisplay "N/A" from rfl, hd,
      pyOr_eq_self _ (currency_append_ne_empty _)] at hp
    exact currency_append_ne_na _ hp

lemma csvRow_empty (it : RawItem) (h : isRowEmpty (cleanItem it) = true) :
    csvRow (cleanItem it) = ["N/A", "N/A", "N/A"] := by
  obtain ⟨h1, h2, h3⟩ := empty_cleanItem_fields it h
  simp [csvRow, h1, h2, h3, pyOr_eq_self _ na_ne_empty]

lemma xlsxRow_empty (it : RawItem) (hg : GoodRecord it)
    (h : isRowEmpty (cleanItem it) = true) :
    xlsxRow (cleanItem it) = ["N/A", "N/A", "N/A"] := by
  obtain ⟨h1, _, h3⟩ := empty_cleanItem_fields it h
  have hn := empty_cleanItem_numeric it hg h
  simp [xlsxRow, xlsxPriceText, h1, h3, hn, pyOr_eq_self _ na_ne_empty]

lemma survivor_rows_ne (s : CleanedItem) (hg : GoodClean s)
    (hf : isRowEmpty s = false) :
    csvRow s ≠ ["N/A", "N/A", "N/A"] ∧ xlsxRow s ≠ ["N/A", "N/A", "N/A"] := by
  rcases isRowEmpty_false_fields hf with hN | hP | hI
  · push_neg at hN
    have he : pyOr s.Name "N/A" = s.Name := pyOr_eq_self _ hN.2
    constructor <;> intro heq <;> simp [csvRow, xlsxRow, he] at heq <;>
      exact hN.1 heq.1
  · push_neg at hP
    have he : pyOr s.Price "N/A" = s.Price := pyOr_eq_self _ hP.2
    have hx : xlsxPriceText s = s.Price := by
      rcases hg with ⟨_, hp⟩ | ⟨x, hn, hp⟩
      · exact absurd hp hP.1
      · simp [xlsxPriceText, hn, renderCurrencyCell, hp]
    constructor <;> intro heq <;> simp [csvRow, xlsxRow, he, hx] at heq <;>
      exact hP.1 heq.2.1
  · push_neg at hI
    have he : pyOr s.Image "N/A" = s.Image := pyOr_eq_self _ hI.2
    constructor <;> intro heq <;> simp [csvRow, xlsxRow, he] at heq <;>
      exact hI.1 heq.2.2

/-! ### Claim theorems -/

/-- Claim C1, counterexample.  The claim says `parse_price` returns the value
of the first substring matching the decimal-number pattern
`digits(,digits)*(.digits)?`.  On amount text `".5"` the first such match is
`"5"`, whose comma-stripped float value is `5`; the code instead matches the
character-class run `".5"` (the regex actually used is `[\d\.,]+`) and
returns numeric `0.5` with display `"$0.50"`, not `5` with `"$5.00"`. -/
theorem c1_counterexample :
    firstDecimalMatch (amount_text ⟨"", [".5"], ""⟩).data = some ['5'] ∧
      pyFloat (stripCommas ['5']) = some ⟨5, 0⟩ ∧
      Flt.val ⟨5, 0⟩ = 5 ∧
      parse_price (some ⟨"", [".5"], ""⟩) = ("$0.50", some ⟨5, 1⟩) ∧
      Flt.val ⟨5, 1⟩ ≠ 5 ∧ ("$0.50" : String) ≠ "$5.00" := by
  refine ⟨by decide, by decide, by norm_num [Flt.val], by decide, ?_, by decide⟩
  norm_num [Flt.val]

/-- Claim C1, amended: the token taken is the first maximal run of
digit/dot/comma characters (the regex `[\d\.,]+`), not the first match of the
structured decimal pattern; whenever comma-stripping that token yields a
string that parses as a float, `parse_price` returns that numeric value and
the display formed by the configured currency symbol followed by the number
with thousands separators and two decimal places, regardless of the currency
glyph in the fragment. -/
theorem c1_first_run_parsed (b : PriceBlock) (tok : List Char) (x : Flt)
    (h1 : findRun isNumChar (amount_text b).data = some tok)
    (h2 : pyFloat (stripCommas tok) = some x) :
    parse_price (some b) = (currency_symbol ++ formatComma2 x, some x) := by
  simp [parse_price, h1, h2]

/-- Witness for C1 on the spec's own example: a fragment with glyph `"£"` and
amount text `"1,234.50"` yields numeric `1234.50` and display `"$1,234.50"`. -/
theorem c1_first_run_parsed_witness :
    findRun isNumChar (amount_text ⟨"£", ["1,234.50"], ""⟩).data = some "1,234.50".data ∧
      pyFloat (stripCommas "1,234.50".data) = some ⟨123450, 2⟩ ∧
      parse_price (some ⟨"£", ["1,234.50"], ""⟩) = ("$1,234.50", some ⟨123450, 2⟩) ∧
      Flt.val ⟨123450, 2⟩ = 1234.50 := by
  refine ⟨by decide, by decide, ?_, by norm_num [Flt.val]⟩
  have h := c1_first_run_parsed ⟨"£", ["1,234.50"], ""⟩ "1,234.50".data ⟨123450, 2⟩
    (by decide) (by decide)
  rw [h]
  decide

/-- Claim C2: `parse_price` returns the sentinel pair `("N/A", none)` exactly
when the fragment is absent/empty, the amount text has no match of the number
pattern, or float-parsing the matched token fails; and the numeric result is
present iff the display result is not the sentinel. -/
theorem c2_sentinel_exactly_on_failure (pb : Option PriceBlock) :
    (parse_price pb = ("N/A", none) ↔
      (pb = none ∨ ∃ b, pb = some b ∧
        (findRun isNumChar (amount_text b).data = none ∨
          ∃ tok, findRun isNumChar (amount_text b).data = some tok ∧
            pyFloat (stripCommas tok) = none))) ∧
    ((parse_price pb).2.isSome ↔ (parse_price pb).1 ≠ "N/A") := by
  cases pb with
  | none =>
    constructor
    · simp [parse_price]
    · simp [parse_price]
  | some b =>
    cases h1 : findRun isNumChar (amount_text b).data with
    | none =>
      have e : parse_price (some b) = ("N/A", none) := by simp [parse_price, h1]
      rw [e]
      constructor
      · constructor
        · intro _
          exact Or.inr ⟨b, rfl, Or.inl h1⟩
        · intro _
          rfl
      · simp
    | some tok =>
      cases h2 : pyFloat (stripCommas tok) with
      | none =>
        have e : parse_price (some b) = ("N/A", none) := by simp [parse_price, h1, h2]
        rw [e]
        constructor
        · constructor
          · intro _
            exact Or.inr ⟨b, rfl, Or.inr ⟨tok, h1, h2⟩⟩
          · intro _
            rfl
        · simp
      | some x =>
        have e : parse_price (some b) =
            (currency_symbol ++ formatComma2 x, some x) := by simp [parse_price, h1, h2]
        rw [e]
        constructor
        · constructor
          · intro hcontra
            exact absurd (congrArg Prod.snd hcontra) (by simp)
          · intro hrhs
            exfalso
            rcases hrhs with hno | ⟨b', hb', hcase⟩
            · exact Option.noConfusion hno
            · injection hb' with hb'
              subst hb'
              rcases hcase with hfail | ⟨tok', ht', hf'⟩
              · rw [h1] at hfail
                exact Option.noConfusion hfail
              · rw [h1] at ht'
                injection ht' with ht'
                subst ht'
                rw [h2] at hf'
                exact Option.noConfusion hf'
        · simp [currency_append_ne_na]

/-- Claim C3: `clean_text` never leaves two adjacent whitespace characters,
never leaves leading or trailing whitespace, and maps a missing input to the
empty string.  (As a total Lean function of the embedded code, it returns a
string on every input — the no-exception part of the claim.) -/
theorem c3_clean_text_normalized (t : Option String) :
    NoWsRun (clean_text t).data ∧
      (∀ c ∈ (clean_text t).data.head?, isSpacePy c = false) ∧
      (∀ c ∈ (clean_text t).data.getLast?, isSpacePy c = false) ∧
      clean_text none = "" := by
  obtain ⟨h1, h2, h3⟩ := clean_text_spec t
  exact ⟨h1, h2, h3, rfl⟩

/-- Witness for C3: on the input `" a \t b "` the cleaned text starts with
`'a'` and ends with `'b'`, neither of which is whitespace. -/
theorem c3_clean_text_normalized_witness :
    isSpacePy 'a' = false ∧ isSpacePy 'b' = false :=
  ⟨(c3_clean_text_normalized (some " a \t b ")).2.1 'a' (by decide),
    (c3_clean_text_normalized (some " a \t b ")).2.2.1 'b' (by decide)⟩

/-- Claim C4: the finalize step's dedup keeps, for each (Name, Price, Image)
key, exactly the first cleaned item bearing it, in sequence order: the result
is a subsequence of the cleaned input (no merging, no reordering), its keys
are pairwise distinct (every later duplicate is dropped entirely), and for
every key the first — hence only — retained match is the input's first
match. -/
theorem c4_dedup_first_occurrence_wins (l : List RawItem) :
    (dedupAux (l.map cleanItem) []).Sublist (l.map cleanItem) ∧
      ((dedupAux (l.map cleanItem) []).map dedupKey).Nodup ∧
      ∀ k, (dedupAux (l.map cleanItem) []).find? (fun c => dedupKey c = k) =
        (l.map cleanItem).find? (fun c => dedupKey c = k) := by
  obtain ⟨h1, _, h3⟩ := dedupAux_spec (l.map cleanItem) []
  exact ⟨dedupAux_sublist _ _, h1, fun k => h3 k (by simp)⟩

/-- Claim C5: every row of the final output has at least one real,
non-sentinel field, and an accumulated item whose three display fields are
all empty or sentinel after normalization is absent from the final items and
from both export row lists. -/
theorem c5_empty_rows_excluded (pages : List (List Product)) :
    (∀ r ∈ pipelineItems pages, isRowEmpty r = false) ∧
      ∀ it ∈ rawRecords pages, isRowEmpty (cleanItem it) = true →
        cleanItem it ∉ pipelineItems pages ∧
        csvRow (cleanItem it) ∉ (pipelineItems pages).map csvRow ∧
        xlsxRow (cleanItem it) ∉ (pipelineItems pages).map xlsxRow := by
  have hmem : ∀ r ∈ pipelineItems pages, isRowEmpty r = false :=
    fun r hr => (mem_finalizeItems hr).2
  refine ⟨hmem, ?_⟩
  intro it hit hempty
  have hg := rawRecords_good pages it hit
  refine ⟨?_, ?_, ?_⟩
  · intro habs
    have hf := hmem _ habs
    rw [hempty] at hf
    exact Bool.noConfusion hf
  · intro habs
    simp only [List.mem_map] at habs
    obtain ⟨s, hs, heq⟩ := habs
    have h1 := (survivor_rows_ne s (pipeline_good pages s hs) (hmem s hs)).1
    rw [csvRow_empty it hempty] at heq
    exact h1 heq
  · intro habs
    simp only [List.mem_map] at habs
    obtain ⟨s, hs, heq⟩ := habs
    have h1 := (survivor_rows_ne s (pipeline_good pages s hs) (hmem s hs)).2
    rw [xlsxRow_empty it hg hempty] at heq
    exact h1 heq

/-- Witness for C5: a product with no title, no price fragment and no image
yields the all-sentinel cleaned item, which is dropped from the final items
and from both export row lists. -/
theorem c5_empty_rows_excluded_witness :
    cleanItem ⟨"", "N/A", none, ""⟩ ∉ pipelineItems [[⟨none, none, none⟩]] ∧
      csvRow (cleanItem ⟨"", "N/A", none, ""⟩) ∉
        (pipelineItems [[⟨none, none, none⟩]]).map csvRow :=
  ⟨((c5_empty_rows_excluded [[⟨none, none, none⟩]]).2 ⟨"", "N/A", none, ""⟩
      (by decide) (by decide)).1,
    ((c5_empty_rows_excluded [[⟨none, none, none⟩]]).2 ⟨"", "N/A", none, ""⟩
      (by decide) (by decide)).2.1⟩

/-- Claim C6: the sequence numbers of the accumulated items are exactly
`1..N` in order — unique and strictly increasing in crawl order — and the
finalize step only ever drops items: its output is a subsequence of the
cleaned input, so the survivors keep their relative order (no re-sorting). -/
theorem c6_seq_monotone_order_preserved (pages : List (List Product)) (l : List RawItem) :
    (crawl pages).items.map Prod.fst = List.range' 1 ((crawl pages).items.length) ∧
      List.Pairwise (· < ·) ((crawl pages).items.map Prod.fst) ∧
      (finalizeItems l).Sublist (l.map cleanItem) := by
  have h := crawl_seq_range pages
  have hlen := crawl_items_length pages
  refine ⟨by rw [h, hlen], ?_, finalizeItems_sublist l⟩
  rw [h]
  exact List.pairwise_lt_range' 1 _

/-- Claim C7: the delimited file and the spreadsheet render the identical
row list: for every crawl, mapping the filtered items to CSV rows and to
displayed xlsx rows (numeric price cells rendered under the currency number
format, sentinel cells shown as `"N/A"`) gives the same list of rows, in the
same order, with the same displayed strings. -/
theorem c7_csv_xlsx_rows_equal (pages : List (List Product)) :
    (pipelineItems pages).map csvRow = (pipelineItems pages).map xlsxRow := by
  refine List.map_congr_left ?_
  intro r hr
  have hg := pipeline_good pages r hr
  rcases hg with ⟨hn, hp⟩ | ⟨x, hn, hp⟩
  · simp [csvRow, xlsxRow, xlsxPriceText, hn, hp, pyOr_eq_self _ na_ne_empty]
  · simp [csvRow, xlsxRow, xlsxPriceText, hn, renderCurrencyCell, hp,
      pyOr_eq_self _ (currency_append_ne_empty _)]

/-- Claim C8: the delimited output is a deterministic function of the
sequence of raw items accumulated from the pages — two runs over equal item
sequences write byte-identical CSV content. -/
theorem c8_csv_deterministic (p1 p2 : List (List Product))
    (h : rawRecords p1 = rawRecords p2) : runCsv p1 = runCsv p2 := by
  unfold runCsv pipelineItems
  rw [h]

/-- Witness for C8: two runs over the same captured one-page catalog produce
the same CSV bytes. -/
theorem c8_csv_deterministic_witness :
    runCsv [[⟨some "Bulbasaur", some ⟨"£", ["63.00"], ""⟩, some "img1.png"⟩]] =
      runCsv [[⟨some "Bulbasaur", some ⟨"£", ["63.00"], ""⟩, some "img1.png"⟩]] :=
  c8_csv_deterministic _ _ rfl

/-- Claim C9: when the character-class token matched in the amount text
consists only of separators (so float conversion fails), `parse_price`
returns the sentinel pair instead of propagating the failure.  (The embedded
function is total by construction, covering the no-exception part.) -/
theorem c9_float_failure_caught (b : PriceBlock) (tok : List Char)
    (h1 : findRun isNumChar (amount_text b).data = some tok)
    (h2 : pyFloat (stripCommas tok) = none) :
    parse_price (some b) = ("N/A", none) := by
  simp [parse_price, h1, h2]

/-- Witness for C9: on amount text `","` the matched token is `","`, comma
stripping leaves the empty string, float parsing fails, and the result is the
sentinel pair. -/
theorem c9_float_failure_caught_witness :
    findRun isNumChar (amount_text ⟨"", [","], ""⟩).data = some [','] ∧
      pyFloat (stripCommas [',']) = none ∧
      parse_price (some ⟨"", [","], ""⟩) = ("N/A", none) :=
  ⟨by decide, by decide, c9_float_failure_caught ⟨"", [","], ""⟩ [','] (by decide) (by decide)⟩

/-- Claim C10: every field of every finalized item is a non-empty string, so
the `or "N/A"` fallbacks applied while writing the CSV and the xlsx never
change a value: the exported row equals the finalized values exactly. -/
theorem c10_fallbacks_never_fire (l : List RawItem) (r : CleanedItem)
    (h : r ∈ finalizeItems l) :
    (r.Name ≠ "" ∧ r.Price ≠ "" ∧ r.Image ≠ "") ∧
      csvRow r = [r.Name, r.Price, r.Image] ∧
      xlsxRow r = [r.Name, xlsxPriceText r, r.Image] := by
  obtain ⟨hmem, _⟩ := mem_finalizeItems h
  simp only [List.mem_map] at hmem
  obtain ⟨it, _, heq⟩ := hmem
  have hN : r.Name ≠ "" := by rw [← heq]; exact cleanItem_name_ne_empty it
  have hP : r.Price ≠ "" := by rw [← heq]; exact cleanItem_price_ne_empty it
  have hI : r.Image ≠ "" := by rw [← heq]; exact cleanItem_image_ne_empty it
  refine ⟨⟨hN, hP, hI⟩, ?_, ?_⟩
  · simp [csvRow, pyOr_eq_self _ hN, pyOr_eq_self _ hP, pyOr_eq_self _ hI]
  · simp [xlsxRow, pyOr_eq_self _ hN, pyOr_eq_self _ hI]

/-- Witness for C10 on a one-item crawl result. -/
theorem c10_fallbacks_never_fire_witness :
    csvRow (cleanItem ⟨"Bulbasaur", "$63.00", some ⟨6300, 2⟩, "img1.png"⟩) =
      [(cleanItem ⟨"Bulbasaur", "$63.00", some ⟨6300, 2⟩, "img1.png"⟩).Name,
        (cleanItem ⟨"Bulbasaur", "$63.00", some ⟨6300, 2⟩, "img1.png"⟩).Price,
        (cleanItem ⟨"Bulbasaur", "$63.00", some ⟨6300, 2⟩, "img1.png"⟩).Image] :=
  (c10_fallbacks_never_fire [⟨"Bulbasaur", "$63.00", some ⟨6300, 2⟩, "img1.png"⟩]
    (cleanItem ⟨"Bulbasaur", "$63.00", some ⟨6300, 2⟩, "img1.png"⟩) (by decide)).2.1

end Shop
